import Mathlib

/-!
Verification of the ingestion orchestration core of the capstone repository:
the text chunker, the extraction-job poll loop, the relational persistence
of documents and chunks, the structured stage router with its error
quarantine, and the unstructured (PDF) handler.  Python text values are
modelled as `List Char`; every definition mirrors the corresponding Python
function from the repository sources.
-/

namespace Capstone

/-- Python strings are modelled as lists of characters. -/
abbrev PyStr := List Char

/-- ASCII whitespace recognised by Python's `str.strip()`. -/
def isPySpace (c : Char) : Bool :=
  c == ' ' || c == '\t' || c == '\n' || c == '\r' || c == '\x0b' || c == '\x0c'

/-- Python `s.strip()`: remove leading and trailing whitespace. -/
def pyStrip (s : PyStr) : PyStr :=
  ((s.dropWhile isPySpace).reverse.dropWhile isPySpace).reverse

/-- Python `s.lower()` restricted to ASCII case mapping. -/
def pyLower (s : PyStr) : PyStr := s.map Char.toLower

/-- Python `os.path.basename`: the part of the path after the last slash. -/
def basename (s : PyStr) : PyStr :=
  (s.reverse.takeWhile (fun c => !(c == '/'))).reverse

/-- Python `s.endswith(suffix)`. -/
def pyEndsWith (s suffix : PyStr) : Bool :=
  s.drop (s.length - suffix.length) == suffix

/-- Worker for `splitBlankRuns`, structurally recursive on a fuel argument
kept at least as large as the remaining input (each step consumes at least
one character, so the fuel-exhaustion arm is unreachable from
`splitBlankRuns`). -/
def splitBlankGo : Nat → PyStr → PyStr → List PyStr
  | _, [], acc => [acc.reverse]
  | 0, s, acc => [acc.reverse ++ s]
  | f + 1, '\n' :: rest, acc =>
    match rest with
    | '\n' :: rest2 =>
      acc.reverse :: splitBlankGo f (rest2.dropWhile (fun c => c == '\n')) []
    | _ => splitBlankGo f rest ('\n' :: acc)
  | f + 1, c :: rest, acc => splitBlankGo f rest (c :: acc)

/-- Python `re.split(r"\n\x7b2,\x7d", s)`: split on each maximal run of two or
more consecutive newlines (the regex match is greedy, so a whole run of
newlines is one separator). -/
def splitBlankRuns (s : PyStr) : List PyStr :=
  splitBlankGo s.length s []

/-- The repository's `_split_paragraphs` (lambda_pdf_function.py lines
166-168): split the stripped text on blank-line runs, strip each part and
drop the empty ones. -/
def split_paragraphs (text : PyStr) : List PyStr :=
  ((splitBlankRuns (pyStrip text)).map pyStrip).filter (fun p => !p.isEmpty)

/-- Worker for `pySlices`, structurally recursive on a fuel argument kept at
least as large as the remaining input (each step drops at least one
character when `t` is positive, so the fuel-exhaustion arm is unreachable
from `pySlices` whenever `1 ≤ t`). -/
def pySlicesGo (t : Nat) : Nat → PyStr → List PyStr
  | _, [] => []
  | 0, _ => []
  | f + 1, p => p.take t :: pySlicesGo t f (p.drop t)

/-- Python `[p[i:i+t] for i in range(0, len(p), t)]`: cut `p` into
consecutive slices of width `t` (the final slice may be shorter). -/
def pySlices (p : PyStr) (t : Nat) : List PyStr :=
  pySlicesGo t p.length p

/-- One iteration of the paragraph loop of `_chunk_text`
(lambda_pdf_function.py lines 176-193).  The state is the pair of emitted
chunks and the running buffer `cur`; the paragraph gets a trailing newline
appended before the three-way branch of the source. -/
def chunk_step (t m o : Nat) (st : List PyStr × PyStr) (p0 : PyStr) :
    List PyStr × PyStr :=
  let p := p0 ++ ['\n']
  let chunks := st.1
  let cur := st.2
  if cur.length + p.length ≤ t then
    (chunks, cur ++ p)
  else if m < p.length then
    ((chunks ++ (if cur.isEmpty then [] else [cur])) ++ pySlices p t, [])
  else if cur.isEmpty then
    (chunks, p)
  else
    (chunks ++ [cur], cur.drop (cur.length - o) ++ p)

/-- The repository's `_chunk_text` (lambda_pdf_function.py lines 170-196):
fold the paragraph loop over the split paragraphs and flush the remaining
buffer truncated to `m` characters.  Defaults in the source are
`t = 3200`, `m = 4000`, `o = 200`. -/
def chunk_text (text : PyStr) (t m o : Nat) : List PyStr :=
  let st := (split_paragraphs text).foldl (chunk_step t m o) ([], [])
  st.1 ++ (if st.2.isEmpty then [] else [st.2.take m])

/-- Instrumented variant of `chunk_step`: identical control flow, but each
emitted chunk carries a flag that is `true` exactly when the chunk was
closed at a paragraph boundary with overlap seeding (the final `else`
branch of the source), and `false` for hard-split flushes, hard-split
slices and the final flush. -/
def chunk_step_marked (t m o : Nat) (st : List (PyStr × Bool) × PyStr)
    (p0 : PyStr) : List (PyStr × Bool) × PyStr :=
  let p := p0 ++ ['\n']
  let chunks := st.1
  let cur := st.2
  if cur.length + p.length ≤ t then
    (chunks, cur ++ p)
  else if m < p.length then
    ((chunks ++ (if cur.isEmpty then [] else [(cur, false)])) ++
      (pySlices p t).map (fun s => (s, false)), [])
  else if cur.isEmpty then
    (chunks, p)
  else
    (chunks ++ [(cur, true)], cur.drop (cur.length - o) ++ p)

/-- Instrumented variant of `chunk_text` recording, for each chunk, whether
it was closed at a paragraph boundary (overlap-seeded case). -/
def chunk_text_marked (text : PyStr) (t m o : Nat) : List (PyStr × Bool) :=
  let st := (split_paragraphs text).foldl (chunk_step_marked t m o) ([], [])
  st.1 ++ (if st.2.isEmpty then [] else [(st.2.take m, false)])

/-- The last `o` characters of a closed chunk, i.e. the Python expression
`cur[max(0, len(cur)-o):]` that seeds the next buffer. -/
def overlap_suffix (o : Nat) (c : PyStr) : PyStr := c.drop (c.length - o)

/-- Relation between consecutive marked chunks: if the first chunk was
closed at a paragraph boundary, the second reproduces the first chunk's
overlap suffix as its first `min o (length)` characters. -/
def overlapRel (o : Nat) (x y : PyStr × Bool) : Prop :=
  x.2 = true → y.1.take (min o x.1.length) = overlap_suffix o x.1

instance (o : Nat) (x y : PyStr × Bool) : Decidable (overlapRel o x y) := by
  unfold overlapRel
  infer_instance

/-! ## Extraction Job Driver: the Textract poll loop -/

/-- Status of an asynchronous extraction job as reported by one poll. -/
inductive JobStatus
  | running
  | succeeded
  | failed
deriving DecidableEq

/-- Result of the poll loop of `_textract_text`: the loop either breaks on
SUCCEEDED, raises on FAILED, or raises a timeout carrying the waited
seconds. -/
inductive PollOutcome
  | success
  | jobFailed
  | timedOut (waited : Nat)
deriving DecidableEq

/-- Worker for `textract_poll`, structurally recursive on a fuel argument.
The loop body mirrors lambda_pdf_function.py lines 211-220: poll, break on
SUCCEEDED, raise on FAILED, raise a timeout once `waited >= max_wait`,
otherwise sleep 2 seconds and add 2 to `waited`.  The fuel-0 RUNNING arm
is only reached with `waited > maxWait` (because `waited + 2 * fuel` stays
at least `maxWait + 2` along the recursion from `textract_poll`), where
the loop times out anyway.  The returned `Nat` is the number of poll calls
performed. -/
def pollGo (stream : Nat → JobStatus) (maxWait : Nat) :
    Nat → Nat → Nat → Nat × PollOutcome
  | 0, waited, n =>
    match stream n with
    | .succeeded => (n + 1, .success)
    | .failed => (n + 1, .jobFailed)
    | .running => (n + 1, .timedOut waited)
  | f + 1, waited, n =>
    match stream n with
    | .succeeded => (n + 1, .success)
    | .failed => (n + 1, .jobFailed)
    | .running =>
      if maxWait ≤ waited then (n + 1, .timedOut waited)
      else pollGo stream maxWait f (waited + 2) (n + 1)

/-- The poll loop of `_textract_text` (lambda_pdf_function.py lines
209-220), abstracted over the stream of statuses returned by the n-th call
to `get_document_text_detection`.  Returns the number of poll calls made
and the outcome. -/
def textract_poll (stream : Nat → JobStatus) (maxWait : Nat) :
    Nat × PollOutcome :=
  pollGo stream maxWait (maxWait + 2) 0 0

/-- Outcome of the poll loop when the observed status is terminal. -/
def terminalResult : JobStatus → PollOutcome
  | .succeeded => .success
  | _ => .jobFailed

/-- The scripted status stream RUNNING, RUNNING, SUCCEEDED of the spec's
poll-count test. -/
def scriptedRRS : Nat → JobStatus := fun n => if n < 2 then .running else .succeeded

/-! ## Dataset Classifier -/

/-- Characters of the class `[_\-.]` used by `_dataset_from_key`. -/
def sepChar (c : Char) : Bool := c == '_' || c == '-' || c == '.'

/-- Python `re.split(r"[_\-.]", b, maxsplit=1)`: the part before the first
separator character and the part after it, or `none` when no separator
occurs. -/
def breakAtSep : PyStr → Option (PyStr × PyStr)
  | [] => none
  | c :: rest =>
    if sepChar c then some ([], rest)
    else
      match breakAtSep rest with
      | some (pre, post) => some (c :: pre, post)
      | none => none

/-- Python `os.path.splitext(b)[1]` on a path: the extension of the base
name, i.e. the segment from the last dot, provided some earlier character
of the base name is not a dot (leading dots never begin an extension). -/
def splitextExt (p : PyStr) : PyStr :=
  let b := basename p
  let r := b.reverse
  let aft := r.takeWhile (fun c => !(c == '.'))
  if aft.length == r.length then []
  else if (r.drop (aft.length + 1)).any (fun c => !(c == '.')) then
    '.' :: aft.reverse
  else []

/-- Python `os.path.splitext(b)[0]`: the base name without its extension. -/
def splitextRoot (b : PyStr) : PyStr :=
  b.take (b.length - (splitextExt b).length)

/-- Character class `[a-z0-9_]` of the classifier's sanitising regex. -/
def goodChar (c : Char) : Bool :=
  ('a' ≤ c && c ≤ 'z') || ('0' ≤ c && c ≤ '9') || c == '_'

/-- Worker for `pySubBadRuns`, structurally recursive on a fuel argument
kept at least as large as the remaining input (each step consumes at least
one character, so the fuel-exhaustion arm is unreachable from
`pySubBadRuns`). -/
def subBadGo : Nat → PyStr → PyStr
  | _, [] => []
  | 0, s => s
  | f + 1, c :: cs =>
    if goodChar c then c :: subBadGo f cs
    else '_' :: subBadGo f (cs.dropWhile (fun d => !goodChar d))

/-- Python `re.sub(r"[^a-z0-9_]+", "_", s)`: replace every maximal run of
characters outside `[a-z0-9_]` by a single underscore. -/
def pySubBadRuns (s : PyStr) : PyStr := subBadGo s.length s

/-- The sanitised candidate `ds` computed by `_dataset_from_key`
(lambda_structured_function.py lines 32-35): base name, split at the first
`_`/`-`/`.`, fall back to the stem when the first segment is empty, strip,
lower-case, sanitise to `[a-z0-9_]`. -/
def dataset_raw (key : PyStr) : PyStr :=
  let base := basename key
  let m0 := match breakAtSep base with
            | some (pre, _) => pre
            | none => base
  let ds0 := if m0.isEmpty then splitextRoot base else m0
  pySubBadRuns (pyLower (pyStrip ds0))

/-- The repository's `_dataset_from_key`
(lambda_structured_function.py lines 26-36): the sanitised candidate, or
the placeholder `dataset` when it came out empty (`ds or "dataset"`). -/
def dataset_from_key (key : PyStr) : PyStr :=
  if (dataset_raw key).isEmpty then "dataset".toList else dataset_raw key

/-- Value of a hexadecimal digit character, when it is one. -/
def hexDigit (c : Char) : Option Nat :=
  if '0' ≤ c ∧ c ≤ '9' then some (c.toNat - '0'.toNat)
  else if 'a' ≤ c ∧ c ≤ 'f' then some (c.toNat - 'a'.toNat + 10)
  else if 'A' ≤ c ∧ c ≤ 'F' then some (c.toNat - 'A'.toNat + 10)
  else none

/-- Python `urllib.parse.unquote` restricted to single-byte escapes: each
`%XX` with two hex digits becomes the character with code `XX`; `+` is not
touched. -/
def pyUnquote : PyStr → PyStr
  | [] => []
  | '%' :: a :: b :: rest =>
    match hexDigit a, hexDigit b with
    | some x, some y => Char.ofNat (16 * x + y) :: pyUnquote rest
    | _, _ => '%' :: pyUnquote (a :: b :: rest)
  | c :: rest => c :: pyUnquote rest

/-! ## Relational persistence: `store_document_and_chunks` -/

/-- A row of the `doc_chunks` table as inserted by
`store_document_and_chunks` (lambda_pdf_function.py lines 134-144). -/
structure ChunkRow where
  document_id : Nat
  chunk_index : Nat
  char_start : Nat
  char_end : Nat
  text : PyStr
deriving DecidableEq

/-- The chunk-insert loop of `store_document_and_chunks`: running offset
`offset`, ordinal `i`, one row per chunk with
`char_start = offset` and `char_end = offset + len`. -/
def chunk_rows (docId : Nat) (offset i : Nat) : List PyStr → List ChunkRow
  | [] => []
  | c :: cs =>
    ⟨docId, i, offset, offset + c.length, c⟩ ::
      chunk_rows docId (offset + c.length) (i + 1) cs

/-- All chunk rows inserted for one document: the loop starts with
`offset = 0` and ordinal `0`. -/
def store_rows (docId : Nat) (chunks : List PyStr) : List ChunkRow :=
  chunk_rows docId 0 0 chunks

/-- State of the relational store restricted to one run: the committed
`documents` rows (id, s3_uri, title) and the committed `doc_chunks`
rows. -/
structure DBState where
  docs : List (Nat × PyStr × PyStr)
  chunks : List ChunkRow
deriving DecidableEq

/-- The chunk-insert loop with an injected failure: the insert of ordinal
`i` raises when `failAt = some i`.  Each `conn.run` INSERT of the source
commits on its own (pg8000's native interface runs in autocommit mode and
`store_document_and_chunks` opens no transaction), so the rows inserted
before the failing statement stay committed; the returned flag is `false`
when the loop raised. -/
def chunk_rows_until (docId : Nat) (failAt : Option Nat) (offset i : Nat) :
    List PyStr → List ChunkRow × Bool
  | [] => ([], true)
  | c :: cs =>
    if failAt == some i then ([], false)
    else
      let r := chunk_rows_until docId failAt (offset + c.length) (i + 1) cs
      (⟨docId, i, offset, offset + c.length, c⟩ :: r.1, r.2)

/-- `store_document_and_chunks` (lambda_pdf_function.py lines 121-151) with
an injected failure of the chunk-insert loop.  The document INSERT commits
first (autocommit, see `chunk_rows_until`); the `finally` block only
closes the connection and rolls nothing back.  Returns the committed state
and whether the call succeeded. -/
def store_with_failure (docId : Nat) (s3uri title : PyStr)
    (chunkTexts : List PyStr) (failAt : Option Nat) : DBState × Bool :=
  let r := chunk_rows_until docId failAt 0 0 chunkTexts
  (⟨[(docId, s3uri, title)], r.1⟩, r.2)

/-! ## Stage Router (Structured): `lambda_structured_function.py` -/

/-- One storage-change record: bucket name and (URL-encoded) object key. -/
structure S3Rec where
  bucket : PyStr
  key : PyStr
deriving DecidableEq

/-- Configuration of the structured router (its module-level environment
constants) plus the ingestion date returned by `_today_yyyy_mm_dd`. -/
structure SEnv where
  bucket : PyStr
  stagingRoot : PyStr
  outputRoot : PyStr
  errorRoot : PyStr
  glueCrawlerName : PyStr
  enableCrawler : Bool
  today : PyStr

/-- Results of the fallible collaborator calls of the structured router:
`copy_object` (with optional replaced metadata), `delete_object`, and
`start_job_run` (returning a run id).  `start_crawler` is absent because
every failure of it is caught and logged by `_start_crawler`. -/
structure SOracle where
  copyRes : PyStr → PyStr → PyStr → PyStr → Option PyStr → Except PyStr Unit
  deleteRes : PyStr → PyStr → Except PyStr Unit
  glueRes : PyStr → Except PyStr PyStr

/-- Side effects (collaborator calls attempted) of one router invocation. -/
inductive SEffect
  | copyObj (srcBucket srcKey destBucket destKey : PyStr) (meta : Option PyStr)
  | deleteObj (bucket key : PyStr)
  | crawlerStart (name : PyStr)
  | glueStart (dataset stagingPath outputPath : PyStr)
  | logFatal (msg : PyStr)
deriving DecidableEq

/-- The staging destination
`STAGING_ROOT/<dataset>/ingest_date=<today>/<basename>` of handler line
103. -/
def dest_key (env : SEnv) (dataset srcKey : PyStr) : PyStr :=
  env.stagingRoot ++ ('/' :: dataset) ++ "/ingest_date=".toList ++
    env.today ++ ('/' :: basename srcKey)

/-- The quarantine destination `ERROR_ROOT/<today>/<basename>` of
`_move_to_errors` line 48. -/
def err_key (env : SEnv) (srcKey : PyStr) : PyStr :=
  env.errorRoot ++ ('/' :: env.today) ++ ('/' :: basename srcKey)

/-- The body of the per-record `try` block of the structured
`lambda_handler` (lines 91-122): extension filter, bucket filter, dataset
classification, copy-then-delete staging, optional crawler start (all its
errors are swallowed inside `_start_crawler`), and the Glue job start.
Returns the attempted collaborator calls and either `ok` or the raised
message. -/
def record_body (env : SEnv) (orc : SOracle) (rec : S3Rec) :
    List SEffect × Except PyStr Unit :=
  let srcKey := pyUnquote rec.key
  let ext := splitextExt (pyLower srcKey)
  if !(ext == ".csv".toList || ext == ".json".toList) then ([], .ok ())
  else if !(rec.bucket == env.bucket) then ([], .ok ())
  else
    let ds := dataset_from_key srcKey
    let dk := dest_key env ds srcKey
    match orc.copyRes env.bucket srcKey env.bucket dk none with
    | .error e => ([.copyObj env.bucket srcKey env.bucket dk none], .error e)
    | .ok _ =>
      match orc.deleteRes env.bucket srcKey with
      | .error e =>
        ([.copyObj env.bucket srcKey env.bucket dk none,
          .deleteObj env.bucket srcKey], .error e)
      | .ok _ =>
        let fx1 : List SEffect :=
          [.copyObj env.bucket srcKey env.bucket dk none,
           .deleteObj env.bucket srcKey] ++
          (if env.enableCrawler then
            [.crawlerStart (if env.glueCrawlerName.isEmpty then
              "crawler-".toList ++ ds else env.glueCrawlerName)]
           else [])
        let sp := env.stagingRoot ++ ('/' :: ds) ++ ['/']
        let op := env.outputRoot ++ ('/' :: ds) ++ ['/']
        match orc.glueRes ds with
        | .error e => (fx1 ++ [.glueStart ds sp op], .error e)
        | .ok _ => (fx1 ++ [.glueStart ds sp op], .ok ())

/-- The handler's quarantine attempt (lines 126-130): call
`_move_to_errors` with the source key and the error message — a copy to
`err_key` carrying metadata `reason[:255]`, then a delete of the source —
and log (without raising) when the attempt itself fails. -/
def quarantine_attempt (env : SEnv) (orc : SOracle) (srcKey reason : PyStr) :
    List SEffect :=
  let ek := err_key env srcKey
  let meta := some (reason.take 255)
  .copyObj env.bucket srcKey env.bucket ek meta ::
    (match orc.copyRes env.bucket srcKey env.bucket ek meta with
     | .error m => [.logFatal m]
     | .ok _ =>
       .deleteObj env.bucket srcKey ::
         (match orc.deleteRes env.bucket srcKey with
          | .error m => [.logFatal m]
          | .ok _ => []))

/-- One record of the structured `lambda_handler` loop, i.e. the `try`
block together with its `except` clause (lines 90-131): on a raised
message the quarantine is attempted (when the source key is known and
non-empty) and the original message is re-raised. -/
def process_record (env : SEnv) (orc : SOracle) (rec : S3Rec) :
    List SEffect × Except PyStr Unit :=
  let srcKey := pyUnquote rec.key
  match record_body env orc rec with
  | (fx, .ok _) => (fx, .ok ())
  | (fx, .error e) =>
    (fx ++ (if srcKey.isEmpty then [] else quarantine_attempt env orc srcKey e),
      .error e)

/-- The structured `lambda_handler` (lines 84-133): iterate over the
records of the event; a record whose `except` clause re-raises aborts the
loop and the invocation surfaces that error; otherwise `{"ok": true}` is
returned. -/
def structured_handler (env : SEnv) (orc : SOracle) :
    List S3Rec → List SEffect × Except PyStr Unit
  | [] => ([], .ok ())
  | r :: rs =>
    match process_record env orc r with
    | (fx, .ok _) =>
      let rest := structured_handler env orc rs
      (fx ++ rest.1, rest.2)
    | (fx, .error e) => (fx, .error e)

/-! ## Stage Router (Unstructured): `lambda_pdf_function.py` handler -/

/-- Side effects (collaborator calls attempted) of one PDF-handler
invocation. -/
inductive PEffect
  | extract (bucket key : PyStr)
  | embed (chunk : PyStr)
  | store (uri : PyStr) (chunkTexts : List PyStr)
  | indexWrite (indexName uri : PyStr) (docId : Nat) (nchunks : Nat)
deriving DecidableEq

/-- Results of the fallible collaborator calls of the PDF handler:
`_textract_text`, `embed_text` and `store_document_and_chunks`.
`os_index_chunks` is absent because it swallows every error. -/
structure POracle where
  extractRes : PyStr → PyStr → Except PyStr PyStr
  embedRes : PyStr → Except PyStr (List Int)
  storeRes : PyStr → List PyStr → Except PyStr Nat

/-- Return value of the PDF handler: the skip result for non-PDF keys or
the success summary. -/
inductive PdfResult
  | skip (key : PyStr)
  | ok (uri : PyStr) (docId : Nat) (nchunks : Nat)
deriving DecidableEq

/-- The sequential embedding loop of handler step 3: embed each chunk in
order, stopping at the first failure. -/
def embed_all (orc : POracle) : List PyStr → List PEffect × Except PyStr Unit
  | [] => ([], .ok ())
  | c :: cs =>
    match orc.embedRes c with
    | .error e => ([.embed c], .error e)
    | .ok _ =>
      let rest := embed_all orc cs
      (.embed c :: rest.1, rest.2)

/-- The PDF `lambda_handler` (lambda_pdf_function.py lines 233-279): it
reads `event["Records"][0]` only, URL-decodes the key, short-circuits
non-`.pdf` keys as a skip result, then extracts, chunks with the default
sizes, embeds each chunk, stores document and chunks, and finally writes
to the index (best-effort, never raising).  An empty record list raises
an index error. -/
def pdf_handler (orc : POracle) (records : List S3Rec) :
    List PEffect × Except PyStr PdfResult :=
  match records with
  | [] => ([], .error "IndexError".toList)
  | rec :: _ =>
    let bucket := rec.bucket
    let key := pyUnquote rec.key
    if !pyEndsWith (pyLower key) ".pdf".toList then ([], .ok (.skip key))
    else
      match orc.extractRes bucket key with
      | .error e => ([.extract bucket key], .error e)
      | .ok text =>
        let chunks := chunk_text text 3200 4000 200
        let er := embed_all orc chunks
        match er.2 with
        | .error e => (.extract bucket key :: er.1, .error e)
        | .ok _ =>
          let uri := "s3://".toList ++ bucket ++ ('/' :: key)
          match orc.storeRes uri chunks with
          | .error e =>
            (.extract bucket key :: er.1 ++ [.store uri chunks], .error e)
          | .ok docId =>
            (.extract bucket key :: er.1 ++
              [.store uri chunks,
               .indexWrite "pdf-chunks".toList uri docId chunks.length],
              .ok (.ok uri docId chunks.length))

/-! ## Invariant and concrete fixtures used by the theorems -/

/-- Decidable equality for `Except`, used to evaluate the concrete
handler runs. -/
instance {ε α : Type} [DecidableEq ε] [DecidableEq α] :
    DecidableEq (Except ε α) := fun x y =>
  match x, y with
  | .ok a, .ok b =>
    if h : a = b then isTrue (by rw [h])
    else isFalse (fun hh => h (by cases hh; rfl))
  | .error a, .error b =>
    if h : a = b then isTrue (by rw [h])
    else isFalse (fun hh => h (by cases hh; rfl))
  | .ok _, .error _ => isFalse (fun hh => Except.noConfusion hh)
  | .error _, .ok _ => isFalse (fun hh => Except.noConfusion hh)

/-- Invariant of the marked chunking fold: the emitted chunks satisfy the
overlap relation pairwise, and whenever the most recently emitted chunk
was closed at a paragraph boundary, the running buffer still starts with
that chunk's overlap suffix and is non-empty. -/
def MInv (o : Nat) (st : List (PyStr × Bool) × PyStr) : Prop :=
  List.Chain' (overlapRel o) st.1 ∧
    ∀ x, st.1.getLast? = some x → x.2 = true →
      st.2.take (min o x.1.length) = overlap_suffix o x.1 ∧ st.2 ≠ []

/-- Concrete router configuration for the witnesses and counterexamples:
target bucket `data`, the default roots of the source, crawler disabled,
fixed ingestion date. -/
def envA : SEnv :=
  ⟨"data".toList, "staging/structured".toList, "processed/structured".toList,
    "errors/structured".toList, [], false, "2026-10-12".toList⟩

/-- Oracle whose storage calls succeed and whose Glue job start raises
`boom`. -/
def orcGlueBoom : SOracle :=
  ⟨fun _ _ _ _ _ => .ok (), fun _ _ => .ok (), fun _ => .error "boom".toList⟩

/-- First concrete record of the batch fixtures. -/
def recA : S3Rec := ⟨"data".toList, "alpha_1.csv".toList⟩

/-- Second concrete record of the batch fixtures. -/
def recB : S3Rec := ⟨"data".toList, "beta_2.csv".toList⟩

/-- The collaborator calls attempted by the body of `recA` under
`orcGlueBoom`: stage copy, source delete, and the failing Glue job
start. -/
def fxA : List SEffect :=
  [.copyObj "data".toList "alpha_1.csv".toList "data".toList
     (dest_key envA "alpha".toList "alpha_1.csv".toList) none,
   .deleteObj "data".toList "alpha_1.csv".toList,
   .glueStart "alpha".toList
     ("staging/structured/alpha/".toList) ("processed/structured/alpha/".toList)]

/-- The full effect trace of `recA` under `orcGlueBoom`: the body's calls
followed by the quarantine attempt. -/
def fxAq : List SEffect :=
  fxA ++ quarantine_attempt envA orcGlueBoom "alpha_1.csv".toList "boom".toList

/-- PDF-handler oracle whose collaborator calls all succeed. -/
def orcPdfOk : POracle :=
  ⟨fun _ _ => .ok "hello".toList, fun _ => .ok [], fun _ _ => .ok 1⟩

/-- First record of the PDF batch fixture. -/
def recP1 : S3Rec := ⟨"data".toList, "doc1.pdf".toList⟩

/-- Second record of the PDF batch fixture. -/
def recP2 : S3Rec := ⟨"data".toList, "doc2.pdf".toList⟩

/-! ## Helper lemmas -/

theorem length_le_of_mem_pySlicesGo {t : Nat} :
    ∀ (f : Nat) (p c : PyStr), c ∈ pySlicesGo t f p → c.length ≤ t := by
  intro f
  induction f with
  | zero =>
    intro p c hc
    cases p <;> simp [pySlicesGo] at hc
  | succ f ih =>
    intro p c hc
    cases p with
    | nil => simp [pySlicesGo] at hc
    | cons a as =>
      simp only [pySlicesGo, List.mem_cons] at hc
      rcases hc with h | h
      · subst h
        simp [List.length_take]
      · exact ih _ _ h

theorem length_le_of_mem_pySlices {t : Nat} {p c : PyStr}
    (hc : c ∈ pySlices p t) : c.length ≤ t :=
  length_le_of_mem_pySlicesGo _ _ _ hc

theorem pySlicesGo_length {t : Nat} (ht : 1 ≤ t) :
    ∀ (f : Nat) (p : PyStr), p.length ≤ f →
      (pySlicesGo t f p).length = (p.length + t - 1) / t := by
  intro f
  induction f with
  | zero =>
    intro p hp
    have hnil : p = [] := List.length_eq_zero.mp (Nat.le_zero.mp hp)
    subst hnil
    simp [pySlicesGo]
    exact (Nat.div_eq_of_lt (by omega)).symm
  | succ f ih =>
    intro p hp
    cases p with
    | nil =>
      simp [pySlicesGo]
      exact (Nat.div_eq_of_lt (by omega)).symm
    | cons a as =>
      have hd : ((a :: as).drop t).length = as.length + 1 - t := by
        simp [List.length_drop]
      rw [show pySlicesGo t (f + 1) (a :: as) =
            (a :: as).take t :: pySlicesGo t f ((a :: as).drop t) from rfl]
      rw [List.length_cons, ih _ (by simp at hp ⊢; omega), hd]
      simp only [List.length_cons]
      rcases le_or_lt (as.length + 1) t with hle | hlt
      · rw [Nat.sub_eq_zero_of_le hle]
        have h1 : (0 + t - 1) / t = 0 := Nat.div_eq_of_lt (by omega)
        have h2 : (as.length + 1 + t - 1) / t = 1 :=
          Nat.div_eq_of_lt_le (by omega) (by omega)
        rw [h1, h2]
      · have h1 : as.length + 1 - t + t - 1 = as.length + 1 - 1 := by omega
        have h2 : as.length + 1 + t - 1 = as.length + 1 - 1 + t := by omega
        rw [h1, h2, Nat.add_div_right _ (by omega : 0 < t)]

theorem pySlices_length {t : Nat} (ht : 1 ≤ t) (p : PyStr) :
    (pySlices p t).length = (p.length + t - 1) / t :=
  pySlicesGo_length ht _ _ le_rfl

theorem pySlices_ne_nil {t : Nat} {p : PyStr} (hp : p ≠ []) :
    pySlices p t ≠ [] := by
  cases p with
  | nil => exact absurd rfl hp
  | cons a as => simp [pySlices, pySlicesGo]

theorem subBadGo_all_good :
    ∀ (f : Nat) (s : PyStr), s.length ≤ f →
      (subBadGo f s).all goodChar = true := by
  intro f
  induction f with
  | zero =>
    intro s hs
    have hnil : s = [] := List.length_eq_zero.mp (Nat.le_zero.mp hs)
    subst hnil
    simp [subBadGo]
  | succ f ih =>
    intro s hs
    cases s with
    | nil => simp [subBadGo]
    | cons c cs =>
      simp only [subBadGo]
      by_cases hg : goodChar c
      · rw [if_pos hg]
        simp only [List.all_cons, hg, Bool.true_and]
        exact ih cs (by simp at hs; omega)
      · rw [if_neg hg]
        simp only [List.all_cons, Bool.and_eq_true]
        refine ⟨by decide, ?_⟩
        refine ih _ (le_trans ((List.dropWhile_sublist _).length_le) ?_)
        simp at hs
        omega

theorem pySubBadRuns_all_good (s : PyStr) :
    (pySubBadRuns s).all goodChar = true :=
  subBadGo_all_good _ _ le_rfl

theorem pollGo_first_terminal (stream : Nat → JobStatus) (maxWait : Nat) :
    ∀ (n fuel w i : Nat),
      (∀ j, j < n → stream (i + j) = .running) →
      (∀ j, j < n → w + 2 * j < maxWait) →
      stream (i + n) ≠ .running →
      n ≤ fuel →
      pollGo stream maxWait fuel w i = (i + n + 1, terminalResult (stream (i + n))) := by
  intro n
  induction n with
  | zero =>
    intro fuel w i _ _ h3 _
    rw [Nat.add_zero] at h3 ⊢
    cases hs : stream i with
    | running => exact absurd hs h3
    | succeeded => cases fuel <;> simp [pollGo, hs, terminalResult]
    | failed => cases fuel <;> simp [pollGo, hs, terminalResult]
  | succ n ih =>
    intro fuel w i h1 h2 h3 h4
    have hrun : stream i = .running := by
      have := h1 0 (Nat.succ_pos n)
      simpa using this
    have hw : w < maxWait := by
      have := h2 0 (Nat.succ_pos n)
      simpa using this
    cases fuel with
    | zero => omega
    | succ f =>
      have hstep : pollGo stream maxWait (f + 1) w i =
          pollGo stream maxWait f (w + 2) (i + 1) := by
        simp [pollGo, hrun, Nat.not_le.mpr hw]
      rw [hstep]
      have := ih f (w + 2) (i + 1)
        (fun j hj => by
          have := h1 (j + 1) (by omega)
          rw [show i + 1 + j = i + (j + 1) from by omega]
          exact this)
        (fun j hj => by
          have := h2 (j + 1) (by omega)
          omega)
        (by rw [show i + 1 + n = i + (n + 1) from by omega]; exact h3)
        (by omega)
      rw [show i + 1 + n = i + (n + 1) from by omega] at this
      exact this

/-! ## Claims -/

/-- C2: the claim states that when an `insertChunk` raises partway through
the loop, `store_document_and_chunks` leaves the relational store without
the document row and without any chunk rows of that run.  The code is
wrong: each INSERT of the source commits on its own (pg8000 native
autocommit; no transaction, no rollback in the `finally` block), so after
a failure at chunk ordinal 1 of a two-chunk run, the store still holds the
document row and chunk 0. -/
theorem store_partial_commit_on_failure :
    store_with_failure 7 "s3://data/report.pdf".toList "report.pdf".toList
        ["ab".toList, "cd".toList] (some 1) =
      (⟨[(7, "s3://data/report.pdf".toList, "report.pdf".toList)],
        [⟨7, 0, 0, 2, "ab".toList⟩]⟩, false)
    ∧ (store_with_failure 7 "s3://data/report.pdf".toList "report.pdf".toList
        ["ab".toList, "cd".toList] (some 1)).1.docs ≠ []
    ∧ (store_with_failure 7 "s3://data/report.pdf".toList "report.pdf".toList
        ["ab".toList, "cd".toList] (some 1)).1.chunks ≠ [] := by
  decide

/-- C3 counterexample: with `max_wait = 4` and interval 2, the all-RUNNING
stream produces exactly 3 poll calls (not 2 as claimed) before the timeout
error: the status check precedes the `waited >= max_wait` check, so a
third poll happens at `waited = 4`. -/
theorem textract_poll_two_polls_cex :
    (textract_poll (fun _ => JobStatus.running) 4).1 = 3
    ∧ ¬(textract_poll (fun _ => JobStatus.running) 4).1 = 2
    ∧ (textract_poll (fun _ => JobStatus.running) 4).2 = PollOutcome.timedOut 4 := by
  decide

/-- C3 (amended): the poll loop returns at the first terminal status when
that status arrives within the wait budget (`n + 1` polls for a first
terminal status at index `n`, success on SUCCEEDED, an error on FAILED);
the scripted RUNNING, RUNNING, SUCCEEDED stream takes exactly 3 polls; and
with `max_wait = 4` and interval 2 the all-RUNNING stream takes exactly
3 polls and then times out with the elapsed wait attached — never an
infinite loop. -/
theorem textract_poll_spec :
    (∀ (stream : Nat → JobStatus) (maxWait n : Nat),
        (∀ j, j < n → stream j = JobStatus.running) →
        (∀ j, j < n → 2 * j < maxWait) →
        stream n ≠ JobStatus.running →
        textract_poll stream maxWait = (n + 1, terminalResult (stream n)))
    ∧ textract_poll scriptedRRS 180 = (3, PollOutcome.success)
    ∧ textract_poll (fun _ => JobStatus.running) 4 = (3, PollOutcome.timedOut 4) := by
  refine ⟨?_, by decide, by decide⟩
  intro stream maxWait n h1 h2 h3
  have hn : n ≤ maxWait + 2 := by
    cases n with
    | zero => omega
    | succ k =>
      have := h2 k (by omega)
      omega
  have := pollGo_first_terminal stream maxWait n (maxWait + 2) 0 0
    (fun j hj => by simpa using h1 j hj)
    (fun j hj => by have := h2 j hj; omega)
    (by simpa using h3) hn
  simpa [textract_poll] using this

/-- C3 witness: a stream that fails at the second poll is detected there,
with exactly 2 poll calls. -/
theorem textract_poll_spec_witness :
    textract_poll (fun n => if n = 0 then JobStatus.running else JobStatus.failed) 30 =
      (2, PollOutcome.jobFailed) := by
  have h := textract_poll_spec.1
    (fun n => if n = 0 then JobStatus.running else JobStatus.failed) 30 1
    (by intro j hj; simp [Nat.lt_one_iff.mp hj])
    (by intro j hj; omega)
    (by decide)
  simpa [terminalResult] using h

/-- C9: the dataset classifier maps the four spec examples as stated, and
for every key the result is a non-empty string over the character class
`[a-z0-9_]` (with the fixed placeholder `dataset` when the derived segment
is empty). -/
theorem dataset_from_key_spec :
    dataset_from_key "customers_2025-09-22.csv".toList = "customers".toList
    ∧ dataset_from_key "Orders.json".toList = "orders".toList
    ∧ dataset_from_key "sales-2024-12.json".toList = "sales".toList
    ∧ dataset_from_key "report.csv".toList = "report".toList
    ∧ ∀ key : PyStr,
        dataset_from_key key ≠ [] ∧ (dataset_from_key key).all goodChar = true := by
  refine ⟨by decide, by decide, by decide, by decide, ?_⟩
  intro key
  unfold dataset_from_key
  by_cases h : (dataset_raw key).isEmpty
  · rw [if_pos h]
    exact ⟨by decide, by decide⟩
  · rw [if_neg h]
    refine ⟨?_, ?_⟩
    · intro hnil
      rw [hnil] at h
      exact h rfl
    · unfold dataset_raw
      exact pySubBadRuns_all_good _

/-- C9 witness: the classifier output for a concrete mixed-character key
is non-empty and stays inside the `[a-z0-9_]` class. -/
theorem dataset_from_key_spec_witness :
    dataset_from_key "incoming/Sales Report-2024.csv".toList ≠ []
    ∧ (dataset_from_key "incoming/Sales Report-2024.csv".toList).all
        goodChar = true :=
  dataset_from_key_spec.2.2.2.2 "incoming/Sales Report-2024.csv".toList


theorem record_body_of_key_nil (env : SEnv) (orc : SOracle) (rec : S3Rec)
    (hk : pyUnquote rec.key = []) :
    record_body env orc rec = ([], Except.ok ()) := by
  unfold record_body
  rw [hk]
  rfl

theorem record_body_key_ne_nil {env : SEnv} {orc : SOracle} {rec : S3Rec}
    {fx : List SEffect} {e : PyStr}
    (h : record_body env orc rec = (fx, Except.error e)) :
    pyUnquote rec.key ≠ [] := by
  intro hk
  rw [record_body_of_key_nil env orc rec hk] at h
  simp at h

theorem chunk_step_bound {t m o : Nat} (htm : t ≤ m)
    (st : List PyStr × PyStr) (p0 : PyStr)
    (hch : ∀ c ∈ st.1, c.length ≤ m + o) (hcur : st.2.length ≤ m + o) :
    (∀ c ∈ (chunk_step t m o st p0).1, c.length ≤ m + o) ∧
      (chunk_step t m o st p0).2.length ≤ m + o := by
  obtain ⟨chunks, cur⟩ := st
  simp only [chunk_step]
  by_cases h1 : cur.length + (p0 ++ ['\n']).length ≤ t
  · rw [if_pos h1]
    refine ⟨hch, ?_⟩
    simp only [List.length_append, List.length_cons, List.length_nil] at h1 ⊢
    omega
  · rw [if_neg h1]
    by_cases h2 : m < (p0 ++ ['\n']).length
    · rw [if_pos h2]
      refine ⟨?_, by simp⟩
      intro c hc
      rcases List.mem_append.mp hc with hc | hc
      · rcases List.mem_append.mp hc with hc | hc
        · exact hch c hc
        · by_cases hce : cur.isEmpty = true
          · rw [if_pos hce] at hc
            simp at hc
          · rw [if_neg hce] at hc
            rw [List.mem_singleton] at hc
            subst hc
            exact hcur
      · have := length_le_of_mem_pySlices hc
        omega
    · rw [if_neg h2]
      by_cases h3 : cur.isEmpty = true
      · rw [if_pos h3]
        refine ⟨hch, ?_⟩
        simp only [List.length_append, List.length_cons, List.length_nil] at h2 ⊢
        omega
      · rw [if_neg h3]
        constructor
        · intro c hc
          rcases List.mem_append.mp hc with hc | hc
          · exact hch c hc
          · rw [List.mem_singleton] at hc
            subst hc
            exact hcur
        · simp only [List.length_append, List.length_drop, List.length_cons,
            List.length_nil] at h2 ⊢
          omega

theorem chunk_fold_bound {t m o : Nat} (htm : t ≤ m) :
    ∀ (ps : List PyStr) (st : List PyStr × PyStr),
      (∀ c ∈ st.1, c.length ≤ m + o) → st.2.length ≤ m + o →
      (∀ c ∈ (ps.foldl (chunk_step t m o) st).1, c.length ≤ m + o) ∧
        (ps.foldl (chunk_step t m o) st).2.length ≤ m + o := by
  intro ps
  induction ps with
  | nil =>
    intro st h1 h2
    exact ⟨h1, h2⟩
  | cons p ps ih =>
    intro st h1 h2
    rw [List.foldl_cons]
    have hs := chunk_step_bound htm st p h1 h2
    exact ih _ hs.1 hs.2

/-- C1 counterexample: the claim that every chunk has length at most
`max_size` fails.  With `target = 4`, `max = 5`, `overlap = 2` (a valid
triple: `overlap < target ≤ max`) and the three-paragraph input
`aaaa`, `bbbb`, `c`, the middle chunk is the overlap seed `a\n` followed
by `bbbb\n` — 7 characters, exceeding `max = 5`: the paragraph-boundary
branch emits the seeded buffer without truncating it to `max`. -/
theorem chunk_text_max_size_cex :
    ¬(∀ (text : PyStr) (t m o : Nat), o < t → t ≤ m →
        ∀ c ∈ chunk_text text t m o, c.length ≤ m) := by
  intro h
  exact absurd
    (h "aaaa\n\nbbbb\n\nc".toList 4 5 2 (by decide) (by decide)
      "a\nbbbb\n".toList (by decide))
    (by decide)

/-- C1 (amended): for every input text and every parameter triple with
`overlap_size < target_size ≤ max_size`, every chunk returned by the
chunker has length at most `max_size + overlap_size` characters (the
overlap seed of a paragraph-boundary split can push a mid-stream chunk
beyond `max_size` by up to `overlap_size`; only the final chunk is
truncated to `max_size`). -/
theorem chunk_text_le_max_add_overlap (text : PyStr) (t m o : Nat)
    (hot : o < t) (htm : t ≤ m) :
    ∀ c ∈ chunk_text text t m o, c.length ≤ m + o := by
  intro c hc
  simp only [chunk_text] at hc
  have hfold := chunk_fold_bound (o := o) htm (split_paragraphs text) ([], [])
    (by intro x hx; simp at hx) (by simp)
  rcases List.mem_append.mp hc with hc | hc
  · exact hfold.1 c hc
  · by_cases hce :
      ((split_paragraphs text).foldl (chunk_step t m o) ([], [])).2.isEmpty = true
    · rw [if_pos hce] at hc
      simp at hc
    · rw [if_neg hce] at hc
      rw [List.mem_singleton] at hc
      subst hc
      simp only [List.length_take]
      omega

/-- C1 witness: the amended bound instantiated at the counterexample
input, where the middle chunk has 7 = max + overlap characters. -/
theorem chunk_text_le_max_add_overlap_witness :
    2 < 4 ∧ 4 ≤ 5 ∧
      ∀ c ∈ chunk_text "aaaa\n\nbbbb\n\nc".toList 4 5 2, c.length ≤ 5 + 2 :=
  ⟨by decide, by decide,
    chunk_text_le_max_add_overlap _ 4 5 2 (by decide) (by decide)⟩

/-- C5 counterexample: a single trimmed paragraph of 8 characters with
`target = 4`, `max = 5`, `overlap = 2` is hard-split into 3 pieces, not
the claimed ⌈8/4⌉ = 2: the chunker appends a newline to the paragraph
before slicing, so an extra piece holding just the newline appears when
the paragraph length is a multiple of `target`. -/
theorem hard_split_count_cex :
    (chunk_text "aaaaaaaa".toList 4 5 2).length = 3
    ∧ ("aaaaaaaa".toList.length + 4 - 1) / 4 = 2
    ∧ ¬(chunk_text "aaaaaaaa".toList 4 5 2).length =
        ("aaaaaaaa".toList.length + 4 - 1) / 4 := by
  decide

/-- C5 (amended): for every text that splits into a single paragraph `p`
whose length exceeds `max_size`, the chunker emits exactly the fixed-width
slices of `p` plus its appended newline — ⌈(len+1)/target_size⌉ pieces,
written `(len + 1 + target - 1) / target` — each of length at most
`target_size`, and nothing else (no merging with other chunks). -/
theorem hard_split_spec (text p : PyStr) (t m o : Nat)
    (hot : o < t) (htm : t ≤ m)
    (hsplit : split_paragraphs text = [p]) (hlen : m < p.length) :
    chunk_text text t m o = pySlices (p ++ ['\n']) t
    ∧ (chunk_text text t m o).length = (p.length + 1 + t - 1) / t
    ∧ ∀ c ∈ chunk_text text t m o, c.length ≤ t := by
  have hc1 : ¬(([] : PyStr).length + (p ++ ['\n']).length ≤ t) := by
    simp only [List.length_nil, List.length_append, List.length_cons]
    omega
  have hc2 : m < (p ++ ['\n']).length := by
    simp only [List.length_append, List.length_cons]
    omega
  have h1 : chunk_text text t m o = pySlices (p ++ ['\n']) t := by
    simp only [chunk_text, hsplit, List.foldl_cons, List.foldl_nil]
    simp only [chunk_step]
    rw [if_neg hc1, if_pos hc2]
    simp
  refine ⟨h1, ?_, ?_⟩
  · rw [h1]
    show (pySlicesGo t (p ++ ['\n']).length (p ++ ['\n'])).length = _
    rw [pySlicesGo_length (by omega) _ _ le_rfl]
    simp [List.length_append]
  · rw [h1]
    intro c hc
    exact length_le_of_mem_pySlices hc

/-- C5 witness: a single 7-character paragraph with `target = 3`,
`max = 5`, `overlap = 1` yields ⌈8/3⌉ = 3 slices of the
newline-terminated paragraph. -/
theorem hard_split_spec_witness :
    chunk_text "aaaaaaa".toList 3 5 1 = pySlices ("aaaaaaa".toList ++ ['\n']) 3
    ∧ (chunk_text "aaaaaaa".toList 3 5 1).length =
        ("aaaaaaa".toList.length + 1 + 3 - 1) / 3
    ∧ ∀ c ∈ chunk_text "aaaaaaa".toList 3 5 1, c.length ≤ 3 :=
  hard_split_spec "aaaaaaa".toList "aaaaaaa".toList 3 5 1 (by decide) (by decide)
    (by decide) (by decide)

/-- C4 counterexample: under a Glue oracle that fails every transform
start, the two-record batch behaves exactly like the single-record batch —
the second record is never processed (its lone run would attempt calls,
shown by the non-empty trace of `[recB]`), because the first record's
`except` clause re-raises out of the loop. -/
theorem structured_batch_independent_cex :
    structured_handler envA orcGlueBoom [recA, recB] =
      structured_handler envA orcGlueBoom [recA]
    ∧ (structured_handler envA orcGlueBoom [recB]).1 ≠ []
    ∧ (structured_handler envA orcGlueBoom [recA, recB]).2 =
        Except.error "boom".toList := by
  decide

/-- C4 (amended): records of a batch are processed in order, and a record
whose processing re-raises aborts the loop: the batch result is the
failing record's trace and error, with every later sibling left
unprocessed. -/
theorem structured_failure_aborts_batch (env : SEnv) (orc : SOracle)
    (r : S3Rec) (rest : List S3Rec) (fx : List SEffect) (e : PyStr)
    (h : process_record env orc r = (fx, Except.error e)) :
    structured_handler env orc (r :: rest) = (fx, Except.error e) := by
  simp [structured_handler, h]

/-- C4 witness: the amended abort behaviour at the concrete failing
batch. -/
theorem structured_failure_aborts_batch_witness :
    structured_handler envA orcGlueBoom [recA, recB] =
      (fxAq, Except.error "boom".toList) :=
  structured_failure_aborts_batch envA orcGlueBoom recA [recB] fxAq
    "boom".toList (by decide)

/-- C8: whenever the per-record body raises after the source key is known
(the body re-raises only past the extension check, which forces a
non-empty key), the record's `except` clause invokes the quarantine with
the original source key and the message truncated to 255 characters as
metadata, and re-raises the original error; the quarantine attempt starts
with the metadata-carrying copy, and if that copy itself fails the failure
is only logged — the surfaced error is still the original one. -/
theorem structured_quarantine_spec (env : SEnv) (orc : SOracle) (rec : S3Rec)
    (fx : List SEffect) (e : PyStr)
    (hbody : record_body env orc rec = (fx, Except.error e)) :
    process_record env orc rec =
      (fx ++ quarantine_attempt env orc (pyUnquote rec.key) e, Except.error e)
    ∧ (quarantine_attempt env orc (pyUnquote rec.key) e).head? =
        some (SEffect.copyObj env.bucket (pyUnquote rec.key) env.bucket
          (err_key env (pyUnquote rec.key)) (some (e.take 255)))
    ∧ ∀ em,
        orc.copyRes env.bucket (pyUnquote rec.key) env.bucket
            (err_key env (pyUnquote rec.key)) (some (e.take 255)) =
          Except.error em →
        quarantine_attempt env orc (pyUnquote rec.key) e =
          [SEffect.copyObj env.bucket (pyUnquote rec.key) env.bucket
            (err_key env (pyUnquote rec.key)) (some (e.take 255)),
           SEffect.logFatal em] := by
  have hkey : pyUnquote rec.key ≠ [] := record_body_key_ne_nil hbody
  have hempty : (pyUnquote rec.key).isEmpty = false := by
    cases hemp : (pyUnquote rec.key).isEmpty
    · rfl
    · exact absurd (List.isEmpty_iff.mp hemp) hkey
  refine ⟨?_, rfl, ?_⟩
  · simp [process_record, hbody, hempty]
  · intro em hcopy
    simp [quarantine_attempt, hcopy]

/-- C8 witness: the quarantine behaviour at the concrete failing record
(Glue start fails with `boom`; quarantine copy and delete succeed). -/
theorem structured_quarantine_spec_witness :
    process_record envA orcGlueBoom recA =
      (fxA ++ quarantine_attempt envA orcGlueBoom (pyUnquote recA.key)
        "boom".toList, Except.error "boom".toList) :=
  (structured_quarantine_spec envA orcGlueBoom recA fxA "boom".toList
    (by decide)).1

theorem chunk_rows_map_index (docId : Nat) :
    ∀ (cs : List PyStr) (offset i : Nat),
      (chunk_rows docId offset i cs).map (fun r => r.chunk_index) =
        List.range' i cs.length := by
  intro cs
  induction cs with
  | nil =>
    intro offset i
    simp [chunk_rows]
  | cons c cs ih =>
    intro offset i
    simp only [chunk_rows, List.map_cons, List.length_cons]
    rw [List.range'_succ, ih]

theorem chunk_rows_end_sub_start (docId : Nat) :
    ∀ (cs : List PyStr) (offset i : Nat),
      (chunk_rows docId offset i cs).map (fun r => r.char_end - r.char_start) =
        (chunk_rows docId offset i cs).map (fun r => r.text.length) := by
  intro cs
  induction cs with
  | nil =>
    intro offset i
    simp [chunk_rows]
  | cons c cs ih =>
    intro offset i
    simp only [chunk_rows, List.map_cons]
    rw [ih]
    simp

theorem chunk_rows_map_start (docId : Nat) :
    ∀ (cs : List PyStr) (offset i : Nat),
      (chunk_rows docId offset i cs).map (fun r => r.char_start) =
        (List.range cs.length).map
          (fun j => offset + ((cs.take j).map List.length).sum) := by
  intro cs
  induction cs with
  | nil =>
    intro offset i
    simp [chunk_rows]
  | cons c cs ih =>
    intro offset i
    simp only [chunk_rows, List.map_cons, List.length_cons]
    rw [ih (offset + c.length) (i + 1), List.range_succ_eq_map]
    rw [List.map_cons, List.map_map]
    congr 1
    refine List.map_congr_left ?_
    intro j hj
    simp only [Function.comp_apply]
    rw [List.take_succ_cons, List.map_cons, List.sum_cons]
    omega

theorem chunk_rows_chain_start (docId : Nat) :
    ∀ (cs : List PyStr) (offset i : Nat),
      List.Chain' (· ≤ ·)
        ((chunk_rows docId offset i cs).map (fun r => r.char_start)) := by
  intro cs
  induction cs with
  | nil =>
    intro offset i
    simp [chunk_rows]
  | cons c cs ih =>
    intro offset i
    simp only [chunk_rows, List.map_cons]
    rw [List.chain'_cons']
    refine ⟨?_, ih _ _⟩
    intro y hy
    cases cs with
    | nil => simp [chunk_rows] at hy
    | cons d ds =>
      simp only [chunk_rows, List.map_cons, List.head?_cons] at hy
      simp at hy
      omega

theorem chunk_rows_chain_end (docId : Nat) :
    ∀ (cs : List PyStr) (offset i : Nat),
      List.Chain' (· ≤ ·)
        ((chunk_rows docId offset i cs).map (fun r => r.char_end)) := by
  intro cs
  induction cs with
  | nil =>
    intro offset i
    simp [chunk_rows]
  | cons c cs ih =>
    intro offset i
    simp only [chunk_rows, List.map_cons]
    rw [List.chain'_cons']
    refine ⟨?_, ih _ _⟩
    intro y hy
    cases cs with
    | nil => simp [chunk_rows] at hy
    | cons d ds =>
      simp only [chunk_rows, List.map_cons, List.head?_cons] at hy
      simp at hy
      omega

/-- C7: the chunk rows inserted by `store_document_and_chunks` carry
ordinals forming the contiguous sequence 0..N-1 in insertion order;
`char_end - char_start` equals the text length on every row; the start
offset of row `i` is the sum of the lengths of chunks 0..i-1, restarting
at 0 for the document; and both offset columns are monotonically
non-decreasing across ordinals. -/
theorem store_rows_invariants (docId : Nat) (chunks : List PyStr) :
    (store_rows docId chunks).map (fun r => r.chunk_index) =
      List.range chunks.length
    ∧ (store_rows docId chunks).map (fun r => r.char_end - r.char_start) =
        (store_rows docId chunks).map (fun r => r.text.length)
    ∧ (store_rows docId chunks).map (fun r => r.char_start) =
        (List.range chunks.length).map
          (fun j => ((chunks.take j).map List.length).sum)
    ∧ List.Chain' (· ≤ ·)
        ((store_rows docId chunks).map (fun r => r.char_start))
    ∧ List.Chain' (· ≤ ·)
        ((store_rows docId chunks).map (fun r => r.char_end)) := by
  refine ⟨?_, ?_, ?_, ?_, ?_⟩
  · rw [List.range_eq_range']
    exact chunk_rows_map_index docId chunks 0 0
  · exact chunk_rows_end_sub_start docId chunks 0 0
  · have h := chunk_rows_map_start docId chunks 0 0
    simpa using h
  · exact chunk_rows_chain_start docId chunks 0 0
  · exact chunk_rows_chain_end docId chunks 0 0

/-- C7 witness: the ordinal invariant at a concrete two-chunk store. -/
theorem store_rows_invariants_witness :
    (store_rows 5 ["ab".toList, "c".toList]).map (fun r => r.chunk_index) =
      List.range (["ab".toList, "c".toList] : List PyStr).length :=
  (store_rows_invariants 5 ["ab".toList, "c".toList]).1


/-! ## C6: exact overlap at paragraph-boundary splits -/

theorem overlap_suffix_length (o : Nat) (c : PyStr) :
    (overlap_suffix o c).length = min o c.length := by
  simp only [overlap_suffix, List.length_drop]
  omega

theorem memOfGetLast {α : Type} :
    ∀ (l : List α) (x : α), l.getLast? = some x → x ∈ l := by
  intro l
  induction l with
  | nil =>
    intro x h
    simp at h
  | cons a l ih =>
    intro x h
    cases l with
    | nil =>
      simp at h
      subst h
      exact List.mem_singleton.mpr rfl
    | cons b l' =>
      rw [List.getLast?_cons_cons] at h
      exact List.mem_cons_of_mem a (ih x h)

theorem getLast_of_append_ne_nil {α : Type} (A B : List α) (hB : B ≠ []) :
    (A ++ B).getLast? = B.getLast? := by
  rw [List.getLast?_append]
  cases hB' : B.getLast? with
  | none => exact absurd (List.getLast?_eq_none_iff.mp hB') hB
  | some z => rfl

theorem chain'_of_flags_false {o : Nat} :
    ∀ (l : List (PyStr × Bool)), (∀ x ∈ l, x.2 = false) →
      List.Chain' (overlapRel o) l := by
  intro l
  induction l with
  | nil =>
    intro
    exact List.chain'_nil
  | cons a l ih =>
    intro h
    rw [List.chain'_cons']
    refine ⟨?_, ih (fun x hx => h x (List.mem_cons_of_mem a hx))⟩
    intro y _ htrue
    have ha := h a (List.mem_cons_self a l)
    rw [ha] at htrue
    cases htrue

theorem chunk_step_marked_inv {t m o : Nat} (hot : o < t) (htm : t ≤ m)
    (st : List (PyStr × Bool) × PyStr) (p0 : PyStr) (h : MInv o st) :
    MInv o (chunk_step_marked t m o st p0) := by
  obtain ⟨chunks, cur⟩ := st
  obtain ⟨hchain, hlast⟩ := h
  simp only [MInv] at hlast ⊢
  simp only [chunk_step_marked]
  by_cases h1 : cur.length + (p0 ++ ['\n']).length ≤ t
  · rw [if_pos h1]
    dsimp only
    refine ⟨hchain, ?_⟩
    intro x hx htrue
    obtain ⟨htake, hne⟩ := hlast x hx htrue
    have hsl := overlap_suffix_length o x.1
    have hkle : min o x.1.length ≤ cur.length := by
      have hlen := congrArg List.length htake
      rw [List.length_take, hsl] at hlen
      omega
    refine ⟨?_, by simp⟩
    rw [List.take_append_of_le_length hkle]
    exact htake
  · rw [if_neg h1]
    by_cases h2 : m < (p0 ++ ['\n']).length
    · rw [if_pos h2]
      dsimp only
      have hpne : p0 ++ ['\n'] ≠ [] := by simp
      have hsne : pySlices (p0 ++ ['\n']) t ≠ [] := pySlices_ne_nil hpne
      have hmne : (pySlices (p0 ++ ['\n']) t).map (fun s => (s, false)) ≠ [] := by
        simpa using hsne
      have hallfalse :
          ∀ y ∈ (pySlices (p0 ++ ['\n']) t).map (fun s => (s, false)),
            y.2 = false := by
        intro y hy
        obtain ⟨s, _, rfl⟩ := List.mem_map.mp hy
        rfl
      constructor
      · rw [List.chain'_append]
        refine ⟨?_, chain'_of_flags_false _ hallfalse, ?_⟩
        · by_cases hce : cur.isEmpty = true
          · rw [if_pos hce]
            simpa using hchain
          · rw [if_neg hce]
            rw [List.chain'_append]
            refine ⟨hchain, List.chain'_singleton _, ?_⟩
            intro x hx y hy
            simp at hy
            subst hy
            intro htrue
            exact (hlast x (Option.mem_def.mp hx) htrue).1
        · intro x hx y _ htrue
          by_cases hce : cur.isEmpty = true
          · rw [if_pos hce] at hx
            rw [List.append_nil] at hx
            obtain ⟨_, hne⟩ := hlast x (Option.mem_def.mp hx) htrue
            exact absurd (List.isEmpty_iff.mp hce) hne
          · rw [if_neg hce] at hx
            rw [Option.mem_def, List.getLast?_concat] at hx
            have hx2 : x = (cur, false) := by
              injection hx with hx
              exact hx.symm
            rw [hx2] at htrue
            cases htrue
      · intro x hx htrue
        rw [getLast_of_append_ne_nil _ _ hmne] at hx
        have hfl := hallfalse x (memOfGetLast _ _ hx)
        rw [hfl] at htrue
        cases htrue
    · rw [if_neg h2]
      by_cases h3 : cur.isEmpty = true
      · rw [if_pos h3]
        dsimp only
        refine ⟨hchain, ?_⟩
        intro x hx htrue
        obtain ⟨_, hne⟩ := hlast x hx htrue
        exact absurd (List.isEmpty_iff.mp h3) hne
      · rw [if_neg h3]
        dsimp only
        constructor
        · rw [List.chain'_append]
          refine ⟨hchain, List.chain'_singleton _, ?_⟩
          intro x hx y hy
          simp at hy
          subst hy
          intro htrue
          exact (hlast x (Option.mem_def.mp hx) htrue).1
        · intro x hx htrue
          rw [List.getLast?_concat] at hx
          have hx2 : x = (cur, true) := by
            injection hx with hx
            exact hx.symm
          subst hx2
          dsimp only
          have hsl : (cur.drop (cur.length - o)).length = min o cur.length :=
            overlap_suffix_length o cur
          refine ⟨?_, by simp⟩
          rw [List.take_append_of_le_length (by omega)]
          rw [List.take_of_length_le (by omega)]
          rfl

theorem chunk_fold_marked_inv {t m o : Nat} (hot : o < t) (htm : t ≤ m) :
    ∀ (ps : List PyStr) (st : List (PyStr × Bool) × PyStr),
      MInv o st → MInv o (ps.foldl (chunk_step_marked t m o) st) := by
  intro ps
  induction ps with
  | nil =>
    intro st h
    exact h
  | cons p ps ih =>
    intro st h
    rw [List.foldl_cons]
    exact ih _ (chunk_step_marked_inv hot htm st p h)

theorem chunk_step_marked_fst (t m o : Nat)
    (st : List (PyStr × Bool) × PyStr) (p0 : PyStr) :
    (chunk_step_marked t m o st p0).1.map Prod.fst =
      (chunk_step t m o (st.1.map Prod.fst, st.2) p0).1
    ∧ (chunk_step_marked t m o st p0).2 =
        (chunk_step t m o (st.1.map Prod.fst, st.2) p0).2 := by
  obtain ⟨chunks, cur⟩ := st
  simp only [chunk_step_marked, chunk_step]
  by_cases h1 : cur.length + (p0 ++ ['\n']).length ≤ t
  · rw [if_pos h1, if_pos h1]
    exact ⟨rfl, rfl⟩
  · rw [if_neg h1, if_neg h1]
    by_cases h2 : m < (p0 ++ ['\n']).length
    · rw [if_pos h2, if_pos h2]
      refine ⟨?_, rfl⟩
      rw [List.map_append, List.map_append, List.map_map]
      congr 1
      · congr 1
        by_cases h3 : cur.isEmpty = true
        · rw [if_pos h3, if_pos h3]
          rfl
        · rw [if_neg h3, if_neg h3]
          rfl
      · exact List.map_id _
    · rw [if_neg h2, if_neg h2]
      by_cases h3 : cur.isEmpty = true
      · rw [if_pos h3, if_pos h3]
        exact ⟨rfl, rfl⟩
      · rw [if_neg h3, if_neg h3]
        refine ⟨?_, rfl⟩
        simp

theorem chunk_fold_marked_fst (t m o : Nat) :
    ∀ (ps : List PyStr) (st : List (PyStr × Bool) × PyStr),
      ((ps.foldl (chunk_step_marked t m o) st).1.map Prod.fst,
        (ps.foldl (chunk_step_marked t m o) st).2) =
        ps.foldl (chunk_step t m o) (st.1.map Prod.fst, st.2) := by
  intro ps
  induction ps with
  | nil =>
    intro st
    rfl
  | cons p ps ih =>
    intro st
    rw [List.foldl_cons, List.foldl_cons]
    rw [ih (chunk_step_marked t m o st p)]
    have h := chunk_step_marked_fst t m o st p
    rw [h.1, h.2, Prod.mk.eta]

theorem chunk_text_marked_fst (text : PyStr) (t m o : Nat) :
    (chunk_text_marked text t m o).map Prod.fst = chunk_text text t m o := by
  simp only [chunk_text_marked, chunk_text]
  have h := chunk_fold_marked_fst t m o (split_paragraphs text) ([], [])
  simp only [List.map_nil] at h
  have h1 : ((split_paragraphs text).foldl (chunk_step_marked t m o)
      ([], [])).1.map Prod.fst =
      ((split_paragraphs text).foldl (chunk_step t m o) ([], [])).1 := by
    rw [← h]
  have h2 : ((split_paragraphs text).foldl (chunk_step_marked t m o)
      ([], [])).2 =
      ((split_paragraphs text).foldl (chunk_step t m o) ([], [])).2 := by
    rw [← h]
  rw [List.map_append, h1, h2]
  congr 1
  by_cases hce : ((split_paragraphs text).foldl (chunk_step t m o)
      ([], [])).2.isEmpty = true
  · rw [if_pos hce, if_pos hce]
    rfl
  · rw [if_neg hce, if_neg hce]
    rfl

/-- C6: whenever the chunker closes a chunk at a paragraph boundary (the
overlap-seeded case, marked `true` in the instrumented run whose
projection is exactly `chunk_text`), the next chunk begins with exactly
the last `min overlap_size (length of previous chunk)` characters of the
previous chunk: consecutive marked chunks satisfy the overlap relation,
and the overlap suffix indeed has length `min o (length)`. -/
theorem chunk_overlap_exact (text : PyStr) (t m o : Nat)
    (hot : o < t) (htm : t ≤ m) :
    (chunk_text_marked text t m o).map Prod.fst = chunk_text text t m o
    ∧ List.Chain' (overlapRel o) (chunk_text_marked text t m o)
    ∧ ∀ c : PyStr, (overlap_suffix o c).length = min o c.length := by
  refine ⟨chunk_text_marked_fst text t m o, ?_, overlap_suffix_length o⟩
  simp only [chunk_text_marked]
  have hinv := chunk_fold_marked_inv hot htm (split_paragraphs text) ([], [])
    ⟨List.chain'_nil, by intro x hx _; simp at hx⟩
  obtain ⟨hchain, hlast⟩ := hinv
  by_cases hce : ((split_paragraphs text).foldl (chunk_step_marked t m o)
      ([], [])).2.isEmpty = true
  · rw [if_pos hce]
    simpa using hchain
  · rw [if_neg hce]
    rw [List.chain'_append]
    refine ⟨hchain, List.chain'_singleton _, ?_⟩
    intro x hx y hy
    simp at hy
    subst hy
    intro htrue
    obtain ⟨htake, hne⟩ := hlast x (Option.mem_def.mp hx) htrue
    rw [List.take_take]
    have hmin : min (min o x.1.length) m = min o x.1.length := by
      omega
    rw [hmin]
    exact htake

/-- C6 witness: the overlap relation at the concrete three-paragraph
input, whose first two chunks are closed at paragraph boundaries. -/
theorem chunk_overlap_exact_witness :
    List.Chain' (overlapRel 2)
      (chunk_text_marked "aaaa\n\nbbbb\n\nc".toList 4 5 2) :=
  (chunk_overlap_exact "aaaa\n\nbbbb\n\nc".toList 4 5 2 (by decide)
    (by decide)).2.1

/-- C10: the unstructured (PDF) handler reads only the first record of the
event: for every oracle, first record and tail, the handler's full
behaviour (collaborator calls attempted and returned result) on the
multi-record event equals its behaviour on the event holding only the
first record, so records after the first cause no extraction, chunking,
embedding, persistence or indexing side effects. -/
theorem pdf_handler_first_record_only (orc : POracle) (r : S3Rec)
    (rest : List S3Rec) :
    pdf_handler orc (r :: rest) = pdf_handler orc [r] := rfl

/-- C10 witness: the first-record-only behaviour at a concrete two-record
event. -/
theorem pdf_handler_first_record_only_witness :
    pdf_handler orcPdfOk (recP1 :: [recP2]) = pdf_handler orcPdfOk [recP1] :=
  pdf_handler_first_record_only orcPdfOk recP1 [recP2]


end Capstone
